import Mathlib

/-!
Verification of the Text Analytics Aggregation Engine
(`app/analytics/router.py`) against its natural-language specification.

The Python code is shallowly embedded in Lean 4:

* A Unicode character is modelled as a record `UChar` carrying its code
  point and an abstraction `UCat` of the Unicode properties that the
  Python regular-expression engine consults.  A text is a `List UChar`.
  Python's `\w` (for `str` patterns) matches a character iff it is
  alphanumeric in the sense of `str.isalnum` — a letter, a decimal digit
  (category Nd), or a non-decimal numeric character (Numeric_Type digit
  or numeric, e.g. `²`, `½`, `Ⅻ`) — or is the underscore; `\d` matches
  exactly the decimal digits.  `UCat` distinguishes precisely these
  classes, plus the non-word classes named by the spec.
* `str.lower` is modelled as an arbitrary per-code-point map
  `lower : UChar → UChar`, supplied as a parameter; concrete
  instantiations use the ASCII lowering map.
* `collections.Counter` is modelled as an insertion-ordered association
  list; `Counter.most_common(k)` is documented as the stable descending
  sort by count truncated to `k`, embedded here as the sort by the
  total order (count descending, insertion index ascending), which is
  the standard characterisation of a stable sort.
* `scipy.stats.pearsonr` raises `ValueError` when the sample has fewer
  than two points, and on constant input emits `ConstantInputWarning`
  and returns `nan` for both statistics; otherwise `r` is the real
  number `Σ dx·dy / √(Σ dx² · Σ dy²)`, represented here exactly by its
  rational numerator and the rational square of its denominator.
  Python floats are modelled as exact rationals throughout.
* Database filtering happens before the engine runs; each operation is
  modelled as a function of the already-filtered review list, as §6 of
  the spec prescribes.
-/

/-- Abstraction of the Unicode character properties consulted by the
Python `re` module and by the specification: `letter` is category L*,
`decimalDigit` is category Nd (matched by `\d`), `otherNumeric` is a
non-decimal character with a numeric type (e.g. `²`, `½`, `Ⅻ`), and the
remaining classes are the non-word classes the spec names. -/
inductive UCat
  | letter
  | decimalDigit
  | otherNumeric
  | space
  | punct
  | symbol
  | mark
deriving DecidableEq

/-- A Unicode character: its code point together with its `UCat` class. -/
structure UChar where
  code : Nat
  cls : UCat
deriving DecidableEq

/-- Python `\w` on `str` patterns: alphanumeric (`str.isalnum`) or the
underscore (code point 95). -/
def isWordChar (c : UChar) : Bool :=
  c.cls = UCat.letter ∨ c.cls = UCat.decimalDigit ∨ c.cls = UCat.otherNumeric ∨ c.code = 95

/-- The character class `[^\W\d_]` used by `count_letters` and by the
"contains a letter" filter of `extract_clean_words`: a word character
that is neither a decimal digit nor the underscore. -/
def matchesLetterClass (c : UChar) : Bool :=
  isWordChar c ∧ ¬ (c.cls = UCat.decimalDigit) ∧ ¬ (c.code = 95)

/-- `count_letters` from `app/analytics/router.py`: 0 for falsy text,
otherwise the number of characters matching `[^\W\d_]`. -/
def count_letters (text : List UChar) : Nat :=
  match text with
  | [] => 0
  | _ => (text.filter matchesLetterClass).length

/-- Single pass over the text accumulating the current run of word
characters (in reverse); a non-word character, or the end of the text,
closes the run. -/
def tokenizeAux : List UChar → List UChar → List (List UChar)
  | [], acc => if acc = [] then [] else [acc.reverse]
  | c :: rest, acc =>
    if isWordChar c then tokenizeAux rest (c :: acc)
    else if acc = [] then tokenizeAux rest [] else acc.reverse :: tokenizeAux rest []

/-- `re.findall(r"\b\w+\b", text)`: the maximal runs of word characters,
left to right. -/
def tokenize (l : List UChar) : List (List UChar) :=
  tokenizeAux l []

/-- Python string equality is code-point sequence equality; `codes`
projects a token to the value used for set and dict membership. -/
def codes (t : List UChar) : List Nat :=
  t.map UChar.code

/-- Code points of an ASCII string, for writing down the fixed
lexicon/stopword sets. -/
def s2c (s : String) : List Nat :=
  s.toList.map Char.toNat

/-- The `STOPWORDS` set of `app/analytics/router.py`, as code-point
sequences.  (The Python set literal lists "it" twice; a list with a
repeat has the same membership.) -/
def STOPWORDS : List (List Nat) :=
  [ "the", "and", "or", "is", "are", "am", "was", "were",
    "be", "been", "being",
    "of", "to", "in", "on", "for", "with", "at", "by", "from",
    "this", "that", "these", "those",
    "a", "an", "it", "its", "as", "so", "if", "but",
    "very", "really", "just", "also", "too",
    "i", "we", "you", "he", "she", "they",
    "me", "us", "him", "her", "them",
    "my", "our", "your", "his", "their",
    "hotel", "room", "rooms", "place", "stay", "stayed",
    "location", "area", "night", "nights", "day", "days",
    "dan", "yang", "di", "ke", "dari", "itu", "ini", "untuk", "dengan",
    "kami", "kita", "saya", "aku", "dia", "mereka",
    "pada", "ada", "tidak", "bukan" ].map s2c

/-- The `POSITIVE_WORDS` lexicon, as code-point sequences. -/
def POSITIVE_WORDS : List (List Nat) :=
  [ "excellent", "great", "good", "amazing", "clean", "friendly",
    "comfortable", "wonderful", "perfect", "nice", "helpful",
    "recommend", "love", "best", "enjoy", "spacious", "lovely",
    "fantastic", "awesome" ].map s2c

/-- The `NEGATIVE_WORDS` lexicon, as code-point sequences. -/
def NEGATIVE_WORDS : List (List Nat) :=
  [ "bad", "terrible", "awful", "dirty", "rude", "worst", "broken",
    "poor", "noisy", "disappointed", "uncomfortable", "hate",
    "slow", "problem", "issue", "smell", "smelly", "horrible",
    "disgusting" ].map s2c

/-- The per-token filter of `extract_clean_words`: keep a token iff it
contains a `[^\W\d_]` character, has length greater than 2, and is not
a stopword. -/
def keepToken (t : List UChar) : Bool :=
  t.any matchesLetterClass ∧ 2 < t.length ∧ ¬ (codes t ∈ STOPWORDS)

/-- `extract_clean_words` from `app/analytics/router.py`: empty list for
falsy text, otherwise lower-case the text, split into maximal word-char
runs, and keep only tokens passing `keepToken`, preserving order.
`lower` is the per-code-point model of `str.lower`. -/
def extract_clean_words (lower : UChar → UChar) (text : List UChar) : List (List UChar) :=
  match text with
  | [] => []
  | _ => (tokenize (text.map lower)).filter keepToken

/-- ASCII lowering (uppercase A–Z to a–z, all else unchanged): the
fragment of `str.lower` exercised by concrete witnesses. -/
def asciiLower (c : UChar) : UChar :=
  if 65 ≤ c.code ∧ c.code ≤ 90 then ⟨c.code + 32, c.cls⟩ else c

/-- Build an ASCII text, classifying each code point. -/
def asciiText (s : String) : List UChar :=
  s.toList.map fun ch =>
    { code := ch.toNat
      cls :=
        if ch.isAlpha then UCat.letter
        else if ch.isDigit then UCat.decimalDigit
        else if ch = ' ' then UCat.space
        else UCat.punct }

/-- An insertion-ordered counter (`collections.Counter`): an association
list from code-point sequences to counts, new keys appended at the end
as in a Python dict. -/
abbrev Counter : Type :=
  List (List Nat × Nat)

/-- `Counter.update([w])`: increment `w`'s count in place if present,
else append `(w, 1)`. -/
def counterAdd (c : Counter) (w : List Nat) : Counter :=
  match c with
  | [] => [(w, 1)]
  | (v, n) :: rest =>
    if v = w then (v, n + 1) :: rest else (v, n) :: counterAdd rest w

/-- `c[w]` with a default of 0. -/
def counterCount (c : Counter) (w : List Nat) : Nat :=
  match c with
  | [] => 0
  | (v, n) :: rest => if v = w then n else counterCount rest w

/-- The mutable state of the `word_frequency` scan: the two occurrence
counters and the two sets of review identifiers that had at least one
lexicon hit. -/
structure FreqState where
  posC : Counter
  negC : Counter
  posHits : Finset Nat
  negHits : Finset Nat

/-- The body of the `for r in reviews` loop of `word_frequency`: reviews
whose cleaned token list is empty are skipped; each token in the
positive lexicon bumps the positive counter (and marks the review),
and independently each token in the negative lexicon bumps the negative
counter (and marks the review). -/
def processReview (lower : UChar → UChar) (s : FreqState) (rid : Nat)
    (text : List UChar) : FreqState :=
  let ws := (extract_clean_words lower text).map codes
  if ws = [] then s
  else
    { posC := ws.foldl (fun c w => if w ∈ POSITIVE_WORDS then counterAdd c w else c) s.posC
      negC := ws.foldl (fun c w => if w ∈ NEGATIVE_WORDS then counterAdd c w else c) s.negC
      posHits := if ws.any (fun w => w ∈ POSITIVE_WORDS) then insert rid s.posHits else s.posHits
      negHits := if ws.any (fun w => w ∈ NEGATIVE_WORDS) then insert rid s.negHits else s.negHits }

/-- The order realising Python's `Counter.most_common`: higher count
first, and among equal counts the entry with the smaller insertion
index first (the documented stable-sort behaviour of
`heapq.nlargest` / `sorted(..., reverse=True)`). -/
def ccle (a b : Nat × (List Nat × Nat)) : Prop :=
  b.2.2 < a.2.2 ∨ (a.2.2 = b.2.2 ∧ a.1 ≤ b.1)

instance : DecidableRel ccle := by
  intro a b
  unfold ccle
  exact inferInstance

instance : IsTotal (Nat × (List Nat × Nat)) ccle := by
  constructor
  intro a b
  unfold ccle
  omega

instance : IsTrans (Nat × (List Nat × Nat)) ccle := by
  constructor
  intro a b c
  unfold ccle
  omega

/-- `Counter.most_common(k)`: the stable sort of the counter's entries
by descending count, truncated to `k`; stability is realised by sorting
the index-decorated entries by `ccle`. -/
def mostCommon (k : Nat) (c : Counter) : List (List Nat × Nat) :=
  (((List.enum c).insertionSort ccle).map Prod.snd).take k

/-- A review as seen by `word_frequency` after the storage filter
(`text IS NOT NULL`): an identifier and a text. -/
structure WFRow where
  id : Nat
  text : List UChar

/-- The response of the `word_frequency` endpoint. -/
structure WFOut where
  total_reviews_scanned : Nat
  reviews_with_positive_words : Nat
  reviews_with_negative_words : Nat
  top_k : Nat
  positive_top_words : List (List Nat × Nat)
  negative_top_words : List (List Nat × Nat)
deriving DecidableEq

/-- `word_frequency` from `app/analytics/router.py`, as a function of
the already-filtered review list and the (validated) `top_k`. -/
def word_frequency (lower : UChar → UChar) (reviews : List WFRow) (top_k : Nat) : WFOut :=
  let s := reviews.foldl (fun s r => processReview lower s r.id r.text) ⟨[], [], ∅, ∅⟩
  { total_reviews_scanned := reviews.length
    reviews_with_positive_words := s.posHits.card
    reviews_with_negative_words := s.negHits.card
    top_k := top_k
    positive_top_words := mostCommon top_k s.posC
    negative_top_words := mostCommon top_k s.negC }

/-- The stream of positive-lexicon tokens encountered by the scan, in
scan order (reviews in order, tokens of each kept review in order). -/
def posStream (lower : UChar → UChar) (reviews : List WFRow) : List (List Nat) :=
  reviews.flatMap fun r =>
    let ws := (extract_clean_words lower r.text).map codes
    ws.filter (fun w => w ∈ POSITIVE_WORDS)

/-- The stream of negative-lexicon tokens encountered by the scan. -/
def negStream (lower : UChar → UChar) (reviews : List WFRow) : List (List Nat) :=
  reviews.flatMap fun r =>
    let ws := (extract_clean_words lower r.text).map codes
    ws.filter (fun w => w ∈ NEGATIVE_WORDS)

/-- Append an element unless already present: folding this over a
stream lists the distinct elements in first-encounter order. -/
def insertIfNew (acc : List (List Nat)) (w : List Nat) : List (List Nat) :=
  if w ∈ acc then acc else acc ++ [w]

/-- The distinct elements of a stream, in first-encounter order. -/
def firstSeen (stream : List (List Nat)) : List (List Nat) :=
  stream.foldl insertIfNew []

/-- A calendar date (the date part of a review timestamp). -/
structure Date where
  year : Nat
  month : Nat
  day : Nat
deriving DecidableEq

/-- The proleptic-Gregorian serial day number of a date (days counted
from 0000-03-01), the standard civil-calendar arithmetic; two dates are
on the same day / in the same pandas week precisely when the derived
keys below agree, and larger numbers are later days. -/
def dayNumber (dt : Date) : Nat :=
  let y := if dt.month ≤ 2 then dt.year - 1 else dt.year
  let era := y / 400
  let yoe := y % 400
  let mp := (dt.month + 9) % 12
  let doy := (153 * mp + 2) / 5 + dt.day - 1
  let doe := yoe * 365 + yoe / 4 - yoe / 100 + doy
  era * 146097 + doe

/-- The three values of the `interval` parameter; any other string falls
into the `monthly` branch of the code. -/
inductive Granularity
  | daily
  | weekly
  | monthly
deriving DecidableEq

/-- The grouping key of the trend aggregation: `df["date"].dt.date` for
daily (the day itself), `to_period("W")` for weekly (pandas W-SUN weeks,
Monday through Sunday: day numbers `N ≡ 5 (mod 7)` start a week, so the
key is `(N+2)/7`), and `to_period("M")` for monthly (the calendar
year-month).  Each key is numeric with chronological bucket-start
order. -/
def bucketKey (g : Granularity) (dt : Date) : Nat :=
  match g with
  | Granularity.daily => dayNumber dt
  | Granularity.weekly => (dayNumber dt + 2) / 7
  | Granularity.monthly => dt.year * 12 + (dt.month - 1)

/-- A review as seen by `sentiment_trend` after the storage filter
(`polarity IS NOT NULL AND review_date IS NOT NULL`). -/
structure TrendRow where
  date : Date
  polarity : ℚ
deriving DecidableEq

/-- The outcome of `sentiment_trend`: the explicit
`{"error": "Tidak ada data pada rentang ini."}` dictionary, or the
aggregated (bucket, average polarity) series handed to the renderer. -/
inductive TrendResult
  | noData
  | ok (series : List (Nat × ℚ))
deriving DecidableEq

/-- Arithmetic mean of a list of rationals (`DataFrame.mean` /
`np.mean` on an exact model of floats). -/
def ratMean (l : List ℚ) : ℚ :=
  l.sum / l.length

/-- `sentiment_trend` from `app/analytics/router.py`, up to the plot
rendering (out of scope per §6): empty filtered input yields the
explicit no-data outcome; otherwise group by the bucket key (pandas
`groupby` sorts groups by key ascending) and average the polarity in
each group. -/
def sentiment_trend (reviews : List TrendRow) (g : Granularity) : TrendResult :=
  if reviews = [] then TrendResult.noData
  else
    let keys := ((reviews.map fun r => bucketKey g r.date).dedup).insertionSort (· ≤ ·)
    TrendResult.ok <| keys.map fun k =>
      (k, ratMean ((reviews.filter fun r => bucketKey g r.date = k).map TrendRow.polarity))

/-- A scipy floating-point statistic, represented exactly: `nan`, or the
real number `num / √denSq`. -/
inductive RNum
  | nan
  | val (num : ℚ) (denSq : ℚ)
deriving DecidableEq

/-- Sum of squared deviations from the mean, `Σ (v - mean)²`. -/
def devSq (l : List ℚ) : ℚ :=
  (l.map fun v => (v - ratMean l) ^ 2).sum

/-- Sum of products of paired deviations, `Σ (x - x̄)(y - ȳ)`. -/
def covSum (xs ys : List ℚ) : ℚ :=
  ((xs.zip ys).map fun p => (p.1 - ratMean xs) * (p.2 - ratMean ys)).sum

/-- `scipy.stats.pearsonr`, restricted to the `r` statistic: raises
`ValueError` for samples of fewer than two points; on constant input in
either coordinate warns `ConstantInputWarning` and returns `nan`;
special-cases `n = 2` as `sign(x₁-x₀)·sign(y₁-y₀)` (with p-value 1);
otherwise `r = Σ dx·dy / √(Σ dx² · Σ dy²)`. -/
def scipyPearsonr (xs ys : List ℚ) : Except String RNum :=
  match xs, ys with
  | x :: x2 :: xrest, y :: y2 :: yrest =>
    if (x2 :: xrest).all (fun v => v = x) ∨ (y2 :: yrest).all (fun v => v = y) then
      Except.ok RNum.nan
    else if xrest = [] then
      Except.ok (RNum.val ((if x < x2 then 1 else -1) * (if y < y2 then 1 else -1)) 1)
    else
      Except.ok (RNum.val (covSum xs ys) (devSq xs * devSq ys))
  | _, _ => Except.error "x and y must have length at least 2."

/-- A review as seen by `rating_length_correlation` after the storage
filter (`rating IS NOT NULL AND text IS NOT NULL AND text != ''`). -/
structure CorrRow where
  rating : Int
  text : List UChar
deriving DecidableEq

/-- The JSON body of the `rating_length_correlation` response. -/
structure CorrOut where
  avg_length_per_rating : List (Int × Option ℚ)
  pearson_r : RNum
deriving DecidableEq

/-- The outcome of `rating_length_correlation`: the explicit
`{"error": "Tidak ada review dalam rentang ini."}` dictionary, an
uncaught exception escaping the endpoint, or the normal response. -/
inductive CorrResult
  | noData
  | raised (msg : String)
  | ok (out : CorrOut)
deriving DecidableEq

/-- The `avg_length_per_rating` loop: for each rating 1..5 the mean
letter count of the reviews with that rating, or `None` for an empty
subset. -/
def avgLenTable (records : List (Int × Nat)) : List (Int × Option ℚ) :=
  ([1, 2, 3, 4, 5] : List Int).map fun rt =>
    let subset := (records.filter fun p => p.1 = rt).map fun p => ((p.2 : ℚ))
    (rt, if subset = [] then none else some (ratMean subset))

/-- `rating_length_correlation` from `app/analytics/router.py`: empty
filtered input yields the explicit no-data outcome; otherwise the full
`(rating, letter count)` sample — every review, whatever its rating —
is handed to `pearsonr` (whose `ValueError` for a one-point sample
escapes), and the per-rating table is built for ratings 1..5. -/
def rating_length_correlation (reviews : List CorrRow) : CorrResult :=
  if reviews = [] then CorrResult.noData
  else
    let records := reviews.map fun r => (r.rating, count_letters r.text)
    match scipyPearsonr (records.map fun p => ((p.1 : ℚ))) (records.map fun p => ((p.2 : ℚ))) with
    | Except.error m => CorrResult.raised m
    | Except.ok rv => CorrResult.ok ⟨avgLenTable records, rv⟩

/-- The class of characters actually counted by `count_letters`
(Python's `[^\W\d_]`): a Unicode letter, or a non-decimal numeric
character such as `²` or `½` — but never the underscore. -/
def isLetterLike (c : UChar) : Bool :=
  (c.cls = UCat.letter ∨ c.cls = UCat.otherNumeric) ∧ ¬ (c.code = 95)

/-- Ratings 1..5 with identical five-letter texts: the zero-variance
sample from §8 of the spec. -/
def degen5 : List CorrRow :=
  [⟨1, asciiText "hello"⟩, ⟨2, asciiText "hello"⟩, ⟨3, asciiText "hello"⟩,
   ⟨4, asciiText "hello"⟩, ⟨5, asciiText "hello"⟩]

/-- The keys of a counter, in insertion order. -/
def cwords (c : Counter) : List (List Nat) :=
  c.map Prod.fst

/-- The index of the first occurrence of `w` in `l` (Python
`list.index`), used to express first-encounter tie-breaking. -/
def firstIdx (l : List (List Nat)) (w : List Nat) : Nat :=
  match l with
  | [] => 0
  | x :: rest => if x = w then 0 else firstIdx rest w + 1

example : count_letters (asciiText "Room205!") = 4 := by decide

example : dayNumber ⟨1970, 1, 1⟩ = 719468 := by decide

example : bucketKey Granularity.weekly ⟨1970, 1, 4⟩ = bucketKey Granularity.weekly ⟨1969, 12, 29⟩ := by decide

example : bucketKey Granularity.weekly ⟨1970, 1, 5⟩ = bucketKey Granularity.weekly ⟨1970, 1, 4⟩ + 1 := by decide

example : codes (asciiText "abc") = [97, 98, 99] := by decide

example :
    extract_clean_words asciiLower (asciiText "The room was very CLEAN and staff friendly!!") =
      [asciiText "clean", asciiText "staff", asciiText "friendly"] := by decide


/-! ## Claim C2 and claim C10: empty filtered input -/

/-- Claim C2: for an empty filtered review collection, the trend
operation and the correlation operation each return the explicit tagged
no-data outcome (`{"error": ...}`), not an exception and not an empty or
zero-filled series presented as a valid result. -/
theorem C2_empty_input_no_data (g : Granularity) :
    sentiment_trend [] g = TrendResult.noData ∧
      rating_length_correlation [] = CorrResult.noData :=
  ⟨rfl, rfl⟩

/-- Claim C10: for an empty filtered review collection, `word_frequency`
— unlike `sentiment_trend` and `rating_length_correlation` — returns a
successful result with a scanned total of 0, zero positive-hit and
negative-hit review counts, and two empty top-word lists, rather than a
no-data error. -/
theorem C10_word_frequency_empty_ok (lower : UChar → UChar) (k : Nat) (g : Granularity) :
    word_frequency lower [] k =
      { total_reviews_scanned := 0
        reviews_with_positive_words := 0
        reviews_with_negative_words := 0
        top_k := k
        positive_top_words := []
        negative_top_words := [] } ∧
      sentiment_trend [] g = TrendResult.noData ∧
      rating_length_correlation [] = CorrResult.noData := by
  refine ⟨?_, rfl, rfl⟩
  cases k <;> rfl

/-! ## Claim C5: letter counting -/

theorem matchesLetterClass_eq_isLetterLike (c : UChar) :
    matchesLetterClass c = isLetterLike c := by
  by_cases h95 : c.code = 95 <;>
    cases hc : c.cls <;>
      simp [matchesLetterClass, isWordChar, isLetterLike, h95, hc]

/-- Claim C5 (counterexample): the superscript two `²` (U+00B2, general
category No, `Numeric_Type=Digit`) is not a Unicode letter, yet
`re.findall(r"[^\W\d_]", "²")` matches it, so `count_letters` reports 1
for the one-character text `"²"` although it contains zero letter
characters.  The claimed equality with the number of letter characters
fails at this input. -/
theorem C5_counterexample :
    count_letters [⟨178, UCat.otherNumeric⟩] = 1 ∧
      (([⟨178, UCat.otherNumeric⟩] : List UChar).filter
        fun c => c.cls = UCat.letter).length = 0 := by
  decide

/-- Claim C5 (amended): for every text input, `count_letters` equals
the number of characters of the letter-or-non-decimal-numeric class
`[^\W\d_]` — Unicode letters and non-decimal numeric characters (`²`,
`½`, `Ⅻ`, ...) each contribute 1, while decimal digits, underscores,
punctuation, symbols, emoji and whitespace each contribute 0 — and
empty text yields a count of 0. -/
theorem C5_count_letters_letterlike (text : List UChar) :
    count_letters text = (text.filter isLetterLike).length ∧ count_letters [] = 0 := by
  refine ⟨?_, rfl⟩
  cases text with
  | nil => rfl
  | cons c rest =>
    show (List.filter matchesLetterClass (c :: rest)).length = _
    rw [show matchesLetterClass = isLetterLike from funext matchesLetterClass_eq_isLetterLike]

/-! ## Claim C1: degenerate correlation samples -/

/-- When the filtered collection is nonempty and the embedded `pearsonr`
returns a statistic (rather than raising), `rating_length_correlation`
returns the success payload built from the per-rating table and that
statistic. -/
theorem corr_ok_of_scipy (reviews : List CorrRow) (hne : ¬ reviews = []) (rv : RNum)
    (hs : scipyPearsonr
        ((reviews.map fun r => (r.rating, count_letters r.text)).map fun p => ((p.1 : ℚ)))
        ((reviews.map fun r => (r.rating, count_letters r.text)).map fun p => ((p.2 : ℚ))) =
      Except.ok rv) :
    rating_length_correlation reviews =
      CorrResult.ok ⟨avgLenTable (reviews.map fun r => (r.rating, count_letters r.text)), rv⟩ := by
  simp only [rating_length_correlation]
  rw [if_neg hne, hs]

/-- Claim C1 (counterexample): for the degenerate sample
ratings = [1,2,3,4,5] with all letter counts equal to 5 (zero variance
in length), `rating_length_correlation` does not report an explicit
undefined outcome: it returns the ordinary success payload whose
`pearson_r` is the floating-point NaN that `scipy.stats.pearsonr`
produces for constant input, leaking NaN to the caller. -/
theorem C1_counterexample :
    rating_length_correlation degen5 =
      CorrResult.ok
        ⟨[(1, some 5), (2, some 5), (3, some 5), (4, some 5), (5, some 5)], RNum.nan⟩ := by
  norm_num [rating_length_correlation, degen5, scipyPearsonr, avgLenTable, ratMean,
    count_letters, asciiText, matchesLetterClass, isWordChar]
  decide

/-- Claim C1 (amended): whenever the filtered sample has at least two
points and zero variance in either dimension (a constant rating column
or a constant letter-count column), `rating_length_correlation` returns
a normal success result whose `pearson_r` field is NaN — the numerically
undefined value is emitted to the caller instead of an explicit
"undefined" outcome.  (Only the empty collection gets an explicit error
result; a one-point sample raises `ValueError` out of the endpoint.) -/
theorem C1_degenerate_sample_returns_nan (reviews : List CorrRow)
    (h2 : 2 ≤ reviews.length)
    (hdeg : (∃ c : Int, ∀ r ∈ reviews, r.rating = c) ∨
      (∃ c : Nat, ∀ r ∈ reviews, count_letters r.text = c)) :
    ∃ table, rating_length_correlation reviews = CorrResult.ok ⟨table, RNum.nan⟩ := by
  match reviews, h2, hdeg with
  | r1 :: r2 :: rest, _, hdeg =>
    refine ⟨avgLenTable ((r1 :: r2 :: rest).map fun r => (r.rating, count_letters r.text)),
      corr_ok_of_scipy _ (by simp) _ ?_⟩
    simp only [List.map_cons, List.map_map]
    simp only [scipyPearsonr]
    rw [if_pos]
    rcases hdeg with ⟨c, hc⟩ | ⟨c, hc⟩
    · left
      simp only [List.all_eq_true, List.mem_cons, List.mem_map, Function.comp,
        decide_eq_true_eq]
      rintro x (rfl | ⟨r, hr, rfl⟩)
      · rw [hc r2 (by simp), hc r1 (by simp)]
      · show ((r.rating : ℚ)) = ((r1.rating : ℚ))
        rw [hc r (by simp [hr]), hc r1 (by simp)]
    · right
      simp only [List.all_eq_true, List.mem_cons, List.mem_map, Function.comp,
        decide_eq_true_eq]
      rintro x (rfl | ⟨r, hr, rfl⟩)
      · rw [hc r2 (by simp), hc r1 (by simp)]
      · show ((count_letters r.text : ℚ)) = ((count_letters r1.text : ℚ))
        rw [hc r (by simp [hr]), hc r1 (by simp)]

/-- Claim C1 (witness): the amended theorem applies to the concrete
degenerate sample `degen5`. -/
theorem C1_degenerate_sample_returns_nan_witness :
    2 ≤ degen5.length ∧
      (∃ table, rating_length_correlation degen5 = CorrResult.ok ⟨table, RNum.nan⟩) :=
  ⟨by decide,
    C1_degenerate_sample_returns_nan degen5 (by decide) (Or.inr ⟨5, by decide⟩)⟩

/-! ## Claim C7: the per-rating average-length table -/

theorem scipyPearsonr_ok (x x2 y y2 : ℚ) (xr yr : List ℚ) :
    ∃ rv, scipyPearsonr (x :: x2 :: xr) (y :: y2 :: yr) = Except.ok rv := by
  simp only [scipyPearsonr]
  split
  · exact ⟨_, rfl⟩
  · split
    · exact ⟨_, rfl⟩
    · exact ⟨_, rfl⟩

theorem records_filter_eq (reviews : List CorrRow) (rt : Int) :
    ((reviews.map fun r => (r.rating, count_letters r.text)).filter
        fun p => p.1 = rt).map (fun p => ((p.2 : ℚ))) =
      (reviews.filter fun r => r.rating = rt).map fun r => ((count_letters r.text : ℚ)) := by
  induction reviews with
  | nil => rfl
  | cons r rest ih => by_cases h : r.rating = rt <;> simp [h, ih]

theorem sample_fst_eq (reviews : List CorrRow) :
    (reviews.map fun r => (r.rating, count_letters r.text)).map (fun p => ((p.1 : ℚ))) =
      reviews.map fun r => ((r.rating : ℚ)) := by
  simp [List.map_map, Function.comp]

theorem sample_snd_eq (reviews : List CorrRow) :
    (reviews.map fun r => (r.rating, count_letters r.text)).map (fun p => ((p.2 : ℚ))) =
      reviews.map fun r => ((count_letters r.text : ℚ)) := by
  simp [List.map_map, Function.comp]

/-- Claim C7: for every filtered review collection (of at least two
reviews, so that `pearsonr` returns instead of raising), the response's
per-rating table has exactly the keys 1,2,3,4,5 in order; a key maps to
`some` of the arithmetic mean letter count of the reviews with that
rating, and to `none` exactly when no review has that rating; and the
Pearson statistic is computed from the `(rating, letter count)` pairs
of all reviews — a review with a rating outside 1–5 contributes to
that sample but to no table entry (each table entry only reads reviews
whose rating equals its 1–5 key). -/
theorem C7_avg_length_table (reviews : List CorrRow) (h2 : 2 ≤ reviews.length) :
    ∃ out, rating_length_correlation reviews = CorrResult.ok out ∧
      out.avg_length_per_rating.map Prod.fst = [1, 2, 3, 4, 5] ∧
      (∀ rt : Int, ∀ m : ℚ, (rt, some m) ∈ out.avg_length_per_rating →
        m = ratMean ((reviews.filter fun r => r.rating = rt).map
          fun r => ((count_letters r.text : ℚ)))) ∧
      (∀ rt : Int, (rt, (none : Option ℚ)) ∈ out.avg_length_per_rating →
        ∀ r ∈ reviews, r.rating ≠ rt) ∧
      (∀ rt : Int, rt ∈ ([1, 2, 3, 4, 5] : List Int) → (∃ r ∈ reviews, r.rating = rt) →
        (rt, some (ratMean ((reviews.filter fun r => r.rating = rt).map
          fun r => ((count_letters r.text : ℚ))))) ∈ out.avg_length_per_rating) ∧
      scipyPearsonr (reviews.map fun r => ((r.rating : ℚ)))
        (reviews.map fun r => ((count_letters r.text : ℚ))) = Except.ok out.pearson_r := by
  match reviews, h2 with
  | r1 :: r2 :: rest, _ =>
    obtain ⟨rv, hrv⟩ :
        ∃ rv, scipyPearsonr
          (((r1 :: r2 :: rest).map fun r => (r.rating, count_letters r.text)).map
            fun p => ((p.1 : ℚ)))
          (((r1 :: r2 :: rest).map fun r => (r.rating, count_letters r.text)).map
            fun p => ((p.2 : ℚ))) = Except.ok rv := by
      simp only [List.map_cons]
      exact scipyPearsonr_ok _ _ _ _ _ _
    refine ⟨⟨avgLenTable ((r1 :: r2 :: rest).map fun r => (r.rating, count_letters r.text)), rv⟩,
      corr_ok_of_scipy _ (by simp) _ hrv, ?_, ?_, ?_, ?_, ?_⟩
    · simp [avgLenTable]
    · intro rt m hm
      simp only [avgLenTable, List.mem_map, Prod.mk.injEq] at hm
      obtain ⟨rt', _, hrt', hval⟩ := hm
      subst hrt'
      split at hval
      · exact absurd hval (by simp)
      · rw [records_filter_eq] at hval
        exact (Option.some_injective _ hval).symm
    · intro rt hm r hr hrat
      simp only [avgLenTable, List.mem_map, Prod.mk.injEq] at hm
      obtain ⟨rt', _, hrt', hval⟩ := hm
      subst hrt'
      split at hval
      case isTrue hsub =>
        rw [records_filter_eq, List.map_eq_nil_iff, List.filter_eq_nil_iff] at hsub
        exact hsub r hr (by simpa using hrat)
      case isFalse => exact absurd hval (by simp)
    · intro rt hrt ⟨r, hr, hrat⟩
      simp only [avgLenTable, List.mem_map, Prod.mk.injEq]
      refine ⟨rt, hrt, rfl, ?_⟩
      rw [if_neg, records_filter_eq]
      rw [records_filter_eq, List.map_eq_nil_iff, List.filter_eq_nil_iff]
      intro hall
      exact hall r hr (by simpa using hrat)
    · show _ = Except.ok rv
      rw [← sample_fst_eq, ← sample_snd_eq]
      exact hrv

/-- Claim C7 (witness): the theorem applies to a concrete three-review
collection containing an out-of-range rating 7. -/
theorem C7_avg_length_table_witness :
    2 ≤ ([⟨1, asciiText "ab"⟩, ⟨5, asciiText "abcd"⟩,
        ⟨7, asciiText "abcdef"⟩] : List CorrRow).length ∧
      (∃ out, rating_length_correlation
          [⟨1, asciiText "ab"⟩, ⟨5, asciiText "abcd"⟩, ⟨7, asciiText "abcdef"⟩] =
          CorrResult.ok out ∧
        out.avg_length_per_rating.map Prod.fst = [1, 2, 3, 4, 5] ∧
        (∀ rt : Int, ∀ m : ℚ, (rt, some m) ∈ out.avg_length_per_rating →
          m = ratMean ((([⟨1, asciiText "ab"⟩, ⟨5, asciiText "abcd"⟩,
            ⟨7, asciiText "abcdef"⟩] : List CorrRow).filter fun r => r.rating = rt).map
            fun r => ((count_letters r.text : ℚ)))) ∧
        (∀ rt : Int, (rt, (none : Option ℚ)) ∈ out.avg_length_per_rating →
          ∀ r ∈ ([⟨1, asciiText "ab"⟩, ⟨5, asciiText "abcd"⟩,
            ⟨7, asciiText "abcdef"⟩] : List CorrRow), r.rating ≠ rt) ∧
        (∀ rt : Int, rt ∈ ([1, 2, 3, 4, 5] : List Int) →
          (∃ r ∈ ([⟨1, asciiText "ab"⟩, ⟨5, asciiText "abcd"⟩,
            ⟨7, asciiText "abcdef"⟩] : List CorrRow), r.rating = rt) →
          (rt, some (ratMean ((([⟨1, asciiText "ab"⟩, ⟨5, asciiText "abcd"⟩,
            ⟨7, asciiText "abcdef"⟩] : List CorrRow).filter fun r => r.rating = rt).map
            fun r => ((count_letters r.text : ℚ))))) ∈ out.avg_length_per_rating) ∧
        scipyPearsonr (([⟨1, asciiText "ab"⟩, ⟨5, asciiText "abcd"⟩,
            ⟨7, asciiText "abcdef"⟩] : List CorrRow).map fun r => ((r.rating : ℚ)))
          (([⟨1, asciiText "ab"⟩, ⟨5, asciiText "abcd"⟩,
            ⟨7, asciiText "abcdef"⟩] : List CorrRow).map
            fun r => ((count_letters r.text : ℚ))) = Except.ok out.pearson_r) :=
  ⟨by decide, C7_avg_length_table _ (by decide)⟩

/-! ## Claim C4: occurrence counts versus per-review hit tallies -/

theorem counterAdd_count (c : Counter) (v w : List Nat) :
    counterCount (counterAdd c v) w = counterCount c w + if v = w then 1 else 0 := by
  induction c with
  | nil => by_cases h : v = w <;> simp [counterAdd, counterCount, h]
  | cons p rest ih =>
    obtain ⟨u, n⟩ := p
    by_cases hu : u = v
    · subst hu
      by_cases h : u = w <;> simp [counterAdd, counterCount, h]
    · by_cases h : u = w
      · have hvw : ¬ (v = w) := fun hh => hu (h.trans hh.symm)
        have hwv : ¬ (w = v) := fun hh => hvw hh.symm
        simp [counterAdd, counterCount, hu, h, hvw, hwv]
      · simp [counterAdd, counterCount, hu, h, ih]

theorem foldl_counterAdd_count (S : List (List Nat)) (ws : List (List Nat)) (c : Counter)
    (w : List Nat) (hw : w ∈ S) :
    counterCount (ws.foldl (fun c v => if v ∈ S then counterAdd c v else c) c) w =
      counterCount c w + ws.count w := by
  induction ws generalizing c with
  | nil => simp
  | cons v rest ih =>
    by_cases hv : v ∈ S
    · rw [List.foldl_cons, if_pos hv, ih, counterAdd_count]
      by_cases hvw : v = w
      · simp [hvw, List.count_cons]
        omega
      · simp [hvw, List.count_cons]
    · have hvw : ¬ (w = v) := fun h => hv (h ▸ hw)
      rw [List.foldl_cons, if_neg hv, ih]
      simp [List.count_cons, hvw]

/-- Claim C4: processing one review whose cleaned token sequence
contains a positive-lexicon word `w` exactly `n` times adds exactly `n`
to `w`'s global occurrence count, while the set of reviews credited
with "contains a positive word" grows by at most one element;
symmetrically for a negative-lexicon word `v`. -/
theorem C4_occurrence_vs_hit_cap (lower : UChar → UChar) (s : FreqState) (rid : Nat)
    (text : List UChar) (w v : List Nat)
    (hw : w ∈ POSITIVE_WORDS) (hv : v ∈ NEGATIVE_WORDS) :
    counterCount (processReview lower s rid text).posC w =
        counterCount s.posC w + ((extract_clean_words lower text).map codes).count w ∧
      counterCount (processReview lower s rid text).negC v =
        counterCount s.negC v + ((extract_clean_words lower text).map codes).count v ∧
      (processReview lower s rid text).posHits.card ≤ s.posHits.card + 1 ∧
      (processReview lower s rid text).negHits.card ≤ s.negHits.card + 1 := by
  simp only [processReview]
  by_cases hws : (extract_clean_words lower text).map codes = []
  · simp [hws]
  · rw [if_neg hws]
    dsimp only
    refine ⟨foldl_counterAdd_count _ _ _ _ hw, foldl_counterAdd_count _ _ _ _ hv, ?_, ?_⟩
    · split
      · exact Finset.card_insert_le _ _
      · exact Nat.le_succ _
    · split
      · exact Finset.card_insert_le _ _
      · exact Nat.le_succ _

/-- Claim C4 (witness): the theorem applies to a concrete review whose
text contains "excellent" twice and "bad" once, starting from the empty
scan state. -/
theorem C4_occurrence_vs_hit_cap_witness :
    s2c "excellent" ∈ POSITIVE_WORDS ∧ s2c "bad" ∈ NEGATIVE_WORDS ∧
      (counterCount (processReview asciiLower ⟨[], [], ∅, ∅⟩ 1
          (asciiText "excellent stay, excellent food, bad noise")).posC (s2c "excellent") =
        counterCount ([] : Counter) (s2c "excellent") +
          ((extract_clean_words asciiLower
            (asciiText "excellent stay, excellent food, bad noise")).map codes).count
            (s2c "excellent") ∧
      counterCount (processReview asciiLower ⟨[], [], ∅, ∅⟩ 1
          (asciiText "excellent stay, excellent food, bad noise")).negC (s2c "bad") =
        counterCount ([] : Counter) (s2c "bad") +
          ((extract_clean_words asciiLower
            (asciiText "excellent stay, excellent food, bad noise")).map codes).count
            (s2c "bad") ∧
      (processReview asciiLower ⟨[], [], ∅, ∅⟩ 1
          (asciiText "excellent stay, excellent food, bad noise")).posHits.card ≤
        (∅ : Finset Nat).card + 1 ∧
      (processReview asciiLower ⟨[], [], ∅, ∅⟩ 1
          (asciiText "excellent stay, excellent food, bad noise")).negHits.card ≤
        (∅ : Finset Nat).card + 1) :=
  ⟨by decide, by decide,
    C4_occurrence_vs_hit_cap asciiLower ⟨[], [], ∅, ∅⟩ 1
      (asciiText "excellent stay, excellent food, bad noise")
      (s2c "excellent") (s2c "bad") (by decide) (by decide)⟩

/-! ## Claims C8 and C9: the cleaned token sequence -/

theorem tokenizeAux_wf (l : List UChar) :
    ∀ acc, (∀ c ∈ acc, isWordChar c) →
      ∀ t ∈ tokenizeAux l acc, t ≠ [] ∧ (∀ c ∈ t, isWordChar c) ∧ (∀ c ∈ t, c ∈ acc ∨ c ∈ l) := by
  induction l with
  | nil =>
    intro acc hacc t ht
    simp only [tokenizeAux] at ht
    split at ht
    · exact absurd ht (by simp)
    case isFalse hne =>
      simp only [List.mem_singleton] at ht
      subst ht
      exact ⟨by simpa using hne, fun c hc => hacc c (by simpa using hc),
        fun c hc => Or.inl (by simpa using hc)⟩
  | cons x rest ih =>
    intro acc hacc t ht
    simp only [tokenizeAux] at ht
    split at ht
    case isTrue hx =>
      have h := ih (x :: acc)
        (by intro c hc; rcases List.mem_cons.mp hc with rfl | hc'; exacts [hx, hacc c hc']) t ht
      refine ⟨h.1, h.2.1, fun c hc => ?_⟩
      rcases h.2.2 c hc with h' | h'
      · rcases List.mem_cons.mp h' with rfl | h''
        · exact Or.inr (List.mem_cons_self _ _)
        · exact Or.inl h''
      · exact Or.inr (List.mem_cons_of_mem _ h')
    · split at ht
      · have h := ih [] (by simp) t ht
        exact ⟨h.1, h.2.1, fun c hc => (h.2.2 c hc).elim (by simp)
          (fun h' => Or.inr (List.mem_cons_of_mem _ h'))⟩
      case isFalse hne =>
        rcases List.mem_cons.mp ht with rfl | ht'
        · exact ⟨by simpa using hne, fun c hc => hacc c (by simpa using hc),
            fun c hc => Or.inl (by simpa using hc)⟩
        · have h := ih [] (by simp) t ht'
          exact ⟨h.1, h.2.1, fun c hc => (h.2.2 c hc).elim (by simp)
            (fun h' => Or.inr (List.mem_cons_of_mem _ h'))⟩

/-- Every token produced by `tokenize` is a nonempty run of word
characters drawn from the input. -/
theorem tokenize_wf (l : List UChar) (t : List UChar) (ht : t ∈ tokenize l) :
    t ≠ [] ∧ (∀ c ∈ t, isWordChar c) ∧ (∀ c ∈ t, c ∈ l) := by
  have h := tokenizeAux_wf l [] (by simp) t ht
  exact ⟨h.1, h.2.1, fun c hc => (h.2.2 c hc).elim (by simp) id⟩

theorem tokenizeAux_all_word (l : List UChar) :
    ∀ acc, (∀ c ∈ l, isWordChar c) →
      tokenizeAux l acc = if acc = [] ∧ l = [] then [] else [acc.reverse ++ l] := by
  induction l with
  | nil =>
    intro acc _
    by_cases hacc : acc = [] <;> simp [tokenizeAux, hacc]
  | cons x rest ih =>
    intro acc hl
    have hx : isWordChar x := hl x (List.mem_cons_self _ _)
    simp only [tokenizeAux, if_pos hx]
    rw [ih (x :: acc) (fun c hc => hl c (List.mem_cons_of_mem _ hc))]
    simp

/-- A nonempty all-word-character string tokenizes to itself alone. -/
theorem tokenize_of_all_word (w : List UChar) (hw : ∀ c ∈ w, isWordChar c) (hne : w ≠ []) :
    tokenize w = [w] := by
  rw [tokenize, tokenizeAux_all_word w [] hw]
  simp [hne]

/-- Claim C8 (counterexample): the text `"²²²"` (three copies of
U+00B2, a non-decimal numeric character, hence a `\w` word character
that also matches `[^\W\d_]`) survives cleaning as the single token
`"²²²"`, which contains no letter character at all — refuting the part
of the claim that says no surviving token lacks a letter character. -/
theorem C8_counterexample :
    extract_clean_words asciiLower
        [⟨178, UCat.otherNumeric⟩, ⟨178, UCat.otherNumeric⟩, ⟨178, UCat.otherNumeric⟩] =
      [[⟨178, UCat.otherNumeric⟩, ⟨178, UCat.otherNumeric⟩, ⟨178, UCat.otherNumeric⟩]] ∧
      (([⟨178, UCat.otherNumeric⟩, ⟨178, UCat.otherNumeric⟩,
          ⟨178, UCat.otherNumeric⟩] : List UChar).filter
        fun c => c.cls = UCat.letter).length = 0 := by
  decide

/-- Claim C8 (amended): every token surviving `extract_clean_words` has
length greater than 2, is not a stopword, and contains at least one
character of the `[^\W\d_]` class (a letter or a non-decimal numeric
character — not necessarily a letter); and the surviving tokens appear
in the same left-to-right order as in the (lowered) original text,
being a sublist of its token sequence. -/
theorem C8_clean_token_filters (lower : UChar → UChar) (text : List UChar) :
    (∀ t ∈ extract_clean_words lower text,
      2 < t.length ∧ ¬ (codes t ∈ STOPWORDS) ∧ ∃ c ∈ t, matchesLetterClass c) ∧
      (extract_clean_words lower text).Sublist (tokenize (text.map lower)) := by
  cases text with
  | nil => exact ⟨by simp [extract_clean_words], by simp [extract_clean_words, tokenize, tokenizeAux]⟩
  | cons x rest =>
    constructor
    · intro t ht
      have hk := (List.mem_filter.mp ht).2
      simp only [keepToken, Bool.and_eq_true, decide_eq_true_eq, List.any_eq_true] at hk
      exact ⟨hk.2.1, hk.2.2, hk.1⟩
    · exact List.filter_sublist _

/-- Claim C8 (witness): the amended theorem applies to a concrete text;
the first surviving token of
`"The ROOM2 was 123 big_and_clean okay"` is `"big_and_clean"`. -/
theorem C8_clean_token_filters_witness :
    ((asciiText "big_and_clean" ∈
        extract_clean_words asciiLower (asciiText "The ROOM2 was 123 big_and_clean okay")) ∧
      (2 < (asciiText "big_and_clean").length ∧
        ¬ (codes (asciiText "big_and_clean") ∈ STOPWORDS) ∧
        ∃ c ∈ asciiText "big_and_clean", matchesLetterClass c)) ∧
      (extract_clean_words asciiLower
        (asciiText "The ROOM2 was 123 big_and_clean okay")).Sublist
        (tokenize ((asciiText "The ROOM2 was 123 big_and_clean okay").map asciiLower)) :=
  ⟨⟨by decide,
    (C8_clean_token_filters asciiLower (asciiText "The ROOM2 was 123 big_and_clean okay")).1
      (asciiText "big_and_clean") (by decide)⟩,
    (C8_clean_token_filters asciiLower (asciiText "The ROOM2 was 123 big_and_clean okay")).2⟩

theorem flatMap_singleton_id (l : List (List UChar)) (f : List UChar → List (List UChar))
    (h : ∀ x ∈ l, f x = [x]) : l.flatMap f = l := by
  induction l with
  | nil => rfl
  | cons x rest ih =>
    rw [List.flatMap_cons, h x (List.mem_cons_self _ _),
      ih (fun y hy => h y (List.mem_cons_of_mem _ hy))]
    rfl

/-- The ASCII lowering map is idempotent, as `str.lower` is. -/
theorem asciiLower_idem (c : UChar) : asciiLower (asciiLower c) = asciiLower c := by
  simp only [asciiLower]
  by_cases h : 65 ≤ c.code ∧ c.code ≤ 90
  · simp only [if_pos h]
    exact if_neg (show ¬ (65 ≤ c.code + 32 ∧ c.code + 32 ≤ 90) by omega)
  · simp only [if_neg h]

/-- Claim C9: tokenization is idempotent — feeding each token of the
cleaned sequence back through `extract_clean_words` (with any
idempotent per-character lowering map, as `str.lower` is) returns each
token unchanged, so the flattened re-tokenization equals the original
cleaned sequence. -/
theorem C9_tokenization_idempotent (lower : UChar → UChar)
    (hidem : ∀ c, lower (lower c) = lower c) (text : List UChar) :
    (extract_clean_words lower text).flatMap (extract_clean_words lower) =
      extract_clean_words lower text := by
  cases text with
  | nil => rfl
  | cons x rest =>
    apply flatMap_singleton_id
    intro t ht
    have hmem := List.mem_filter.mp ht
    have hwf := tokenize_wf _ t hmem.1
    have hmap : t.map lower = t := by
      have hfix : ∀ c ∈ t, lower c = c := by
        intro c hc
        obtain ⟨c0, _, rfl⟩ := List.mem_map.mp (hwf.2.2 c hc)
        exact hidem c0
      calc t.map lower = t.map id := List.map_congr_left hfix
        _ = t := List.map_id t
    obtain ⟨c, cs, rfl⟩ := List.exists_cons_of_ne_nil hwf.1
    show List.filter keepToken (tokenize ((c :: cs).map lower)) = [c :: cs]
    rw [hmap, tokenize_of_all_word _ hwf.2.1 (by simp)]
    simp [List.filter_cons, hmem.2]

/-- Claim C9 (witness): the theorem applies with the concrete
idempotent ASCII lowering map and a concrete text. -/
theorem C9_tokenization_idempotent_witness :
    (extract_clean_words asciiLower
        (asciiText "The Staff WAS friendly, Breakfast excellent!")).flatMap
        (extract_clean_words asciiLower) =
      extract_clean_words asciiLower
        (asciiText "The Staff WAS friendly, Breakfast excellent!") :=
  C9_tokenization_idempotent asciiLower asciiLower_idem
    (asciiText "The Staff WAS friendly, Breakfast excellent!")

/-! ## Claim C6: the trend aggregation -/

/-- Claim C6: for a nonempty filtered collection (polarity and
timestamp non-absent) and any granularity, the trend aggregation
produces exactly one entry per distinct bucket key present in the data
(every entry's key comes from some review, every review's key appears,
and keys are pairwise distinct), each entry's value is the arithmetic
mean of the polarities of the reviews in that bucket (so a one-review
bucket yields that review's polarity), and entries are ordered by
strictly increasing bucket key — chronological order of bucket starts,
since each granularity's key is an increasing function of the bucket's
start day. -/
theorem C6_trend_bucket_means (reviews : List TrendRow) (g : Granularity)
    (hne : reviews ≠ []) :
    ∃ series, sentiment_trend reviews g = TrendResult.ok series ∧
      (∀ p ∈ series, ∃ r ∈ reviews, bucketKey g r.date = p.1) ∧
      (∀ r ∈ reviews, ∃ p ∈ series, p.1 = bucketKey g r.date) ∧
      series.Pairwise (fun p q => p.1 < q.1) ∧
      (∀ p ∈ series, p.2 =
        ratMean ((reviews.filter fun r => bucketKey g r.date = p.1).map TrendRow.polarity)) := by
  refine ⟨(((reviews.map fun r => bucketKey g r.date).dedup).insertionSort (· ≤ ·)).map
      fun k => (k, ratMean ((reviews.filter fun r => bucketKey g r.date = k).map
        TrendRow.polarity)),
    ?_, ?_, ?_, ?_, ?_⟩
  · simp only [sentiment_trend]
    rw [if_neg hne]
  · intro p hp
    obtain ⟨k, hk, rfl⟩ := List.mem_map.mp hp
    have hk' : k ∈ (reviews.map fun r => bucketKey g r.date).dedup :=
      ((List.perm_insertionSort _ _).mem_iff).mp hk
    obtain ⟨r, hr, rfl⟩ := List.mem_map.mp (List.mem_dedup.mp hk')
    exact ⟨r, hr, rfl⟩
  · intro r hr
    have hk : bucketKey g r.date ∈
        ((reviews.map fun r => bucketKey g r.date).dedup).insertionSort (· ≤ ·) :=
      ((List.perm_insertionSort _ _).mem_iff).mpr
        (List.mem_dedup.mpr (List.mem_map.mpr ⟨r, hr, rfl⟩))
    exact ⟨_, List.mem_map_of_mem _ hk, rfl⟩
  · rw [List.pairwise_map]
    have hs : List.Sorted (· ≤ ·)
        (((reviews.map fun r => bucketKey g r.date).dedup).insertionSort (· ≤ ·)) :=
      List.sorted_insertionSort _ _
    have hn : (((reviews.map fun r => bucketKey g r.date).dedup).insertionSort (· ≤ ·)).Nodup :=
      ((List.perm_insertionSort _ _).nodup_iff).mpr (List.nodup_dedup _)
    exact (hs.and hn).imp (fun h => lt_of_le_of_ne h.1 h.2)
  · intro p hp
    obtain ⟨k, _, rfl⟩ := List.mem_map.mp hp
    rfl

/-- Claim C6 (witness): the theorem applies to the spec's own example —
two same-day reviews with polarities 1/5 and 4/5 at daily granularity
(the single bucket's mean is 1/2). -/
theorem C6_trend_bucket_means_witness :
    ([⟨⟨2015, 3, 2⟩, 1/5⟩, ⟨⟨2015, 3, 2⟩, 4/5⟩] : List TrendRow) ≠ [] ∧
      (∃ series, sentiment_trend
          [⟨⟨2015, 3, 2⟩, 1/5⟩, ⟨⟨2015, 3, 2⟩, 4/5⟩] Granularity.daily =
          TrendResult.ok series ∧
        (∀ p ∈ series, ∃ r ∈ ([⟨⟨2015, 3, 2⟩, 1/5⟩, ⟨⟨2015, 3, 2⟩, 4/5⟩] : List TrendRow),
          bucketKey Granularity.daily r.date = p.1) ∧
        (∀ r ∈ ([⟨⟨2015, 3, 2⟩, 1/5⟩, ⟨⟨2015, 3, 2⟩, 4/5⟩] : List TrendRow),
          ∃ p ∈ series, p.1 = bucketKey Granularity.daily r.date) ∧
        series.Pairwise (fun p q => p.1 < q.1) ∧
        (∀ p ∈ series, p.2 =
          ratMean ((([⟨⟨2015, 3, 2⟩, 1/5⟩, ⟨⟨2015, 3, 2⟩, 4/5⟩] : List TrendRow).filter
            fun r => bucketKey Granularity.daily r.date = p.1).map TrendRow.polarity))) :=
  ⟨by decide, C6_trend_bucket_means _ Granularity.daily (by decide)⟩

/-! ## Claim C3: the top-K word lists -/

theorem cwords_counterAdd (c : Counter) (w : List Nat) :
    cwords (counterAdd c w) = insertIfNew (cwords c) w := by
  induction c with
  | nil => simp [counterAdd, cwords, insertIfNew]
  | cons p rest ih =>
    obtain ⟨v, n⟩ := p
    by_cases hvw : v = w
    · subst hvw
      simp [counterAdd, cwords, insertIfNew]
    · have hL : counterAdd ((v, n) :: rest) w = (v, n) :: counterAdd rest w := by
        simp [counterAdd, hvw]
      rw [hL]
      show v :: cwords (counterAdd rest w) = insertIfNew (v :: cwords rest) w
      rw [ih]
      by_cases hw : w ∈ cwords rest
      · rw [insertIfNew, if_pos hw, insertIfNew, if_pos (List.mem_cons_of_mem _ hw)]
      · rw [insertIfNew, if_neg hw, insertIfNew,
          if_neg (by simp [hw, Ne.symm hvw])]
        rfl

theorem cwords_foldl_tokens (S : List (List Nat)) (ws : List (List Nat)) (c : Counter) :
    cwords (ws.foldl (fun c v => if v ∈ S then counterAdd c v else c) c) =
      (ws.filter fun v => v ∈ S).foldl insertIfNew (cwords c) := by
  induction ws generalizing c with
  | nil => rfl
  | cons v rest ih =>
    by_cases hv : v ∈ S <;> simp [hv, ih, cwords_counterAdd, List.filter_cons]

theorem cwords_scan_pos (lower : UChar → UChar) (reviews : List WFRow) (s : FreqState) :
    cwords ((reviews.foldl (fun s r => processReview lower s r.id r.text) s).posC) =
      (posStream lower reviews).foldl insertIfNew (cwords s.posC) := by
  induction reviews generalizing s with
  | nil => rfl
  | cons r rest ih =>
    rw [List.foldl_cons, ih]
    have hstream : posStream lower (r :: rest) =
        (((extract_clean_words lower r.text).map codes).filter
          fun w => w ∈ POSITIVE_WORDS) ++ posStream lower rest := by
      simp [posStream]
    rw [hstream, List.foldl_append]
    congr 1
    simp only [processReview]
    by_cases hws : (extract_clean_words lower r.text).map codes = []
    · simp [hws]
    · rw [if_neg hws]
      exact cwords_foldl_tokens _ _ _

theorem cwords_scan_neg (lower : UChar → UChar) (reviews : List WFRow) (s : FreqState) :
    cwords ((reviews.foldl (fun s r => processReview lower s r.id r.text) s).negC) =
      (negStream lower reviews).foldl insertIfNew (cwords s.negC) := by
  induction reviews generalizing s with
  | nil => rfl
  | cons r rest ih =>
    rw [List.foldl_cons, ih]
    have hstream : negStream lower (r :: rest) =
        (((extract_clean_words lower r.text).map codes).filter
          fun w => w ∈ NEGATIVE_WORDS) ++ negStream lower rest := by
      simp [negStream]
    rw [hstream, List.foldl_append]
    congr 1
    simp only [processReview]
    by_cases hws : (extract_clean_words lower r.text).map codes = []
    · simp [hws]
    · rw [if_neg hws]
      exact cwords_foldl_tokens _ _ _

theorem nodup_insertIfNew (acc : List (List Nat)) (w : List Nat) (h : acc.Nodup) :
    (insertIfNew acc w).Nodup := by
  unfold insertIfNew
  by_cases hw : w ∈ acc
  · simpa [hw]
  · rw [if_neg hw]
    exact ((List.perm_append_singleton w acc).nodup_iff).mpr (List.Nodup.cons hw h)

theorem nodup_foldl_insertIfNew (stream : List (List Nat)) (acc : List (List Nat))
    (h : acc.Nodup) : (stream.foldl insertIfNew acc).Nodup := by
  induction stream generalizing acc with
  | nil => exact h
  | cons w rest ih => exact ih _ (nodup_insertIfNew _ _ h)

theorem firstIdx_eq_of_getElem (l : List (List Nat)) (hnd : l.Nodup) (i : Nat) (a : List Nat)
    (h : l[i]? = some a) : firstIdx l a = i := by
  induction l generalizing i with
  | nil => simp at h
  | cons x rest ih =>
    cases i with
    | zero =>
      have hx : x = a := by simpa using h
      subst hx
      simp [firstIdx]
    | succ j =>
      simp only [List.getElem?_cons_succ] at h
      have hmem : a ∈ rest := List.getElem?_mem h
      have hxa : ¬ (x = a) := fun hh => (List.nodup_cons.mp hnd).1 (hh ▸ hmem)
      rw [firstIdx, if_neg hxa, ih (List.nodup_cons.mp hnd).2 j h]

theorem mostCommon_length_le (k : Nat) (c : Counter) : (mostCommon k c).length ≤ k := by
  simp only [mostCommon]
  rw [List.length_take]
  exact Nat.min_le_left _ _

/-- `mostCommon` lists entries by strictly descending count, with ties
broken by the position of the word in the counter's insertion order. -/
theorem mostCommon_pairwise (k : Nat) (cnt : Counter) (hnd : (cwords cnt).Nodup) :
    (mostCommon k cnt).Pairwise (fun a b => b.2 < a.2 ∨
      (a.2 = b.2 ∧ firstIdx (cwords cnt) a.1 < firstIdx (cwords cnt) b.1)) := by
  apply List.Pairwise.sublist (List.take_sublist _ _)
  rw [List.pairwise_map]
  have hperm := List.perm_insertionSort ccle (List.enum cnt)
  have hsorted : List.Pairwise ccle ((List.enum cnt).insertionSort ccle) :=
    List.sorted_insertionSort _ _
  have hne : ((List.enum cnt).insertionSort ccle).Pairwise (fun p q => p.1 ≠ q.1) := by
    have hnd' : (((List.enum cnt).insertionSort ccle).map Prod.fst).Nodup :=
      ((hperm.map Prod.fst).nodup_iff).mpr (List.nodup_enum_map_fst cnt)
    exact (List.pairwise_map).mp hnd'
  have hidx : ∀ p ∈ (List.enum cnt).insertionSort ccle, firstIdx (cwords cnt) p.2.1 = p.1 := by
    intro p hp
    have hpe : p ∈ List.enum cnt := hperm.mem_iff.mp hp
    have hget : cnt[p.1]? = some p.2 := List.mem_enum_iff_getElem?.mp hpe
    have hget' : (cwords cnt)[p.1]? = some p.2.1 := by
      rw [cwords, List.getElem?_map, hget]
      rfl
    exact firstIdx_eq_of_getElem _ hnd _ _ hget'
  refine List.Pairwise.imp_of_mem ?_ (hsorted.and hne)
  intro p q hpmem hqmem h
  rcases h.1 with hlt | ⟨heq, hle⟩
  · exact Or.inl hlt
  · refine Or.inr ⟨heq, ?_⟩
    rw [hidx p hpmem, hidx q hqmem]
    exact lt_of_le_of_ne hle h.2

/-- Claim C3: for every review collection and limit K, each of the two
returned top-word lists has at most K entries, and entries appear in
strictly descending order of total occurrence count, with equal-count
ties ordered by the position of each word in the first-encounter order
of the scan (`firstSeen` of the matched-token stream, which is exactly
the counter's insertion order). -/
theorem C3_top_words_ranking (lower : UChar → UChar) (reviews : List WFRow) (k : Nat) :
    (word_frequency lower reviews k).positive_top_words.length ≤ k ∧
      (word_frequency lower reviews k).negative_top_words.length ≤ k ∧
      (word_frequency lower reviews k).positive_top_words.Pairwise
        (fun a b => b.2 < a.2 ∨ (a.2 = b.2 ∧
          firstIdx (firstSeen (posStream lower reviews)) a.1 <
            firstIdx (firstSeen (posStream lower reviews)) b.1)) ∧
      (word_frequency lower reviews k).negative_top_words.Pairwise
        (fun a b => b.2 < a.2 ∨ (a.2 = b.2 ∧
          firstIdx (firstSeen (negStream lower reviews)) a.1 <
            firstIdx (firstSeen (negStream lower reviews)) b.1)) := by
  have hpos : cwords ((reviews.foldl (fun s r => processReview lower s r.id r.text)
      ⟨[], [], ∅, ∅⟩).posC) = firstSeen (posStream lower reviews) :=
    cwords_scan_pos lower reviews ⟨[], [], ∅, ∅⟩
  have hneg : cwords ((reviews.foldl (fun s r => processReview lower s r.id r.text)
      ⟨[], [], ∅, ∅⟩).negC) = firstSeen (negStream lower reviews) :=
    cwords_scan_neg lower reviews ⟨[], [], ∅, ∅⟩
  have hndpos : (firstSeen (posStream lower reviews)).Nodup :=
    nodup_foldl_insertIfNew _ _ List.nodup_nil
  have hndneg : (firstSeen (negStream lower reviews)).Nodup :=
    nodup_foldl_insertIfNew _ _ List.nodup_nil
  refine ⟨mostCommon_length_le _ _, mostCommon_length_le _ _, ?_, ?_⟩
  · have h := mostCommon_pairwise k
      ((reviews.foldl (fun s r => processReview lower s r.id r.text) ⟨[], [], ∅, ∅⟩).posC)
      (hpos ▸ hndpos)
    rw [hpos] at h
    exact h
  · have h := mostCommon_pairwise k
      ((reviews.foldl (fun s r => processReview lower s r.id r.text) ⟨[], [], ∅, ∅⟩).negC)
      (hneg ▸ hndneg)
    rw [hneg] at h
    exact h
